import Mathlib

/-!
Verification development for the merry-plugin-npm scaffolding plugin.

The repository has three source files:
* `src/utils.ts` — the Name Normalizer: `isScoped`, `repoName`, `slugify`
  built around the anchored regex `^(?:@([^/]+?)[/])([^/]+?)$`;
* `src/user.ts` — the Identity Resolver: `user.git.name` / `user.git.email`,
  each memoised per working directory in a process-wide `Map`;
* `src/index.ts` — the orchestration: prompts, the template context `tpl`,
  the fixed action list, `git init` (caught and logged) and the optional
  dependency install.

Each source function is embedded shallowly below; external npm dependencies
(`underscore.string`, `humanize-url`) that the source merely calls are either
passed in as function parameters or, where a claim needs their concrete
behaviour, modelled from the specification with a clearly marked doc string.
-/

namespace MerryNpm

/-! ## Name Normalizer (src/utils.ts) -/

/-- Embedding of the anchored regex test
`^(?:@([^/]+?)[/])([^/]+?)$.test(name)` from `src/utils.ts`:
the name starts with `@`, the first capture group is the non-empty run of
non-slash characters before the first `/`, and the second capture group is
everything after that `/`, which must be non-empty and slash-free. -/
def isScoped (name : String) : Bool :=
  match name.data with
  | '@' :: rest =>
    match rest.dropWhile (fun c => c ≠ '/') with
    | '/' :: pkg =>
      !(rest.takeWhile (fun c => c ≠ '/')).isEmpty
        && !pkg.isEmpty && !pkg.contains '/'
    | _ => false
  | _ => false

/-- The second capture group of the scope regex: the characters after the
first `/` of the tail following the leading `@`. -/
def scopedTail (name : String) : String :=
  String.mk (((name.data.drop 1).dropWhile (fun c => c ≠ '/')).drop 1)

/-- Embedding of `repoName` from `src/utils.ts`:
`isScoped(name) ? name.match(scopedRegex)![2] : name`. -/
def repoName (name : String) : String :=
  if isScoped name then scopedTail name else name

/-- Modelled from the spec: the external `underscore.string` dependency's
`slugify` (not part of this repository), described by the spec as
"lowercase and hyphenate the input into a slug" producing "a lowercase,
hyphen-delimited, filesystem/identifier-safe transformation": every
character is lowercased, non-alphanumeric characters become hyphens, runs
of hyphens are collapsed and boundary hyphens are trimmed. -/
def slugChar (c : Char) : Char :=
  if c.isAlphanum then c.toLower else '-'

/-- Collapse consecutive hyphens, tracking whether the previous kept
character was a hyphen. -/
def collapseDashes : List Char → Bool → List Char
  | [], _ => []
  | c :: cs, prevDash =>
    if c = '-' then
      if prevDash then collapseDashes cs true
      else '-' :: collapseDashes cs true
    else c :: collapseDashes cs false

/-- Modelled from the spec: `_s.slugify` of the external `underscore.string`
package, see `slugChar`. -/
def usSlugify (s : String) : String :=
  String.mk
    ((((collapseDashes (s.data.map slugChar) false).dropWhile
      (fun c => c = '-')).reverse.dropWhile (fun c => c = '-')).reverse)

/-- Embedding of `slugify` from `src/utils.ts`:
`isScoped(name) ? name : _s.slugify(name)`. -/
def slugify (name : String) : String :=
  if isScoped name then name else usSlugify name

/-- The specification's wording of scopedness, for the refinement claim:
the name has the form `@<scope>/<name>` with both segments non-empty and
containing no slash. -/
def scopedSpec (name : String) : Prop :=
  ∃ s n : List Char,
    name.data = '@' :: (s ++ '/' :: n) ∧ s ≠ [] ∧ n ≠ [] ∧ '/' ∉ s ∧ '/' ∉ n

/-! ## Identity Resolver (src/user.ts)

`user.git.name` and `user.git.email` each consult a process-wide `Map`
keyed by `process.cwd()`. A cached value short-circuits the lookup only
when truthy (a non-empty string). Otherwise, when `shell.which('git')`
finds a Git executable, `git config --get user.name` (resp. `user.email`)
is executed, its stdout is trimmed, the trimmed value is written to the
cache and returned; when no Git executable is found, the function falls
through and returns whatever the initial cache read produced
(`undefined` when there was no entry).

The two `Map`s are modelled as association lists whose observable
behaviour is `List.lookup`; `Map.set` is modelled as consing the new
binding, which yields the same lookup semantics (the newest binding for a
key wins). The shell layer is modelled by a per-call environment giving
the current working directory, whether a Git executable is discoverable,
and the raw stdout that the two `git config` invocations would produce. -/

/-- JavaScript `String.prototype.trim`, as applied to the captured stdout:
drop whitespace from both ends of the string. -/
def jsTrim (s : String) : String :=
  String.mk
    (((s.data.dropWhile Char.isWhitespace).reverse.dropWhile
      Char.isWhitespace).reverse)

/-- Per-call view of the external shell layer of `src/user.ts`. -/
structure GitEnv where
  cwd : String
  whichGit : Bool
  nameStdout : String
  emailStdout : String
deriving DecidableEq

/-- The two process-wide caches of `src/user.ts` (`nameCache`,
`emailCache`), as association lists from working directory to cached
string. -/
structure UserState where
  nameCache : List (String × String)
  emailCache : List (String × String)
deriving DecidableEq

/-- `Map.set`, modelled as a cons: lookups find the newest binding. -/
def setEntry (m : List (String × String)) (k v : String) :
    List (String × String) :=
  (k, v) :: m

/-- JavaScript truthiness of a `Map.get` result: a string is truthy iff it
is non-empty; `undefined` is falsy. -/
def truthy : Option String → Bool
  | some s => !s.isEmpty
  | none => false

/-- Result of one call to `user.git.name` / `user.git.email`: the returned
value (`none` models `undefined`), the updated cache state, and whether a
`git config` subprocess was executed. -/
structure CallOut where
  ret : Option String
  state : UserState
  gitInvoked : Bool
deriving DecidableEq

/-- Embedding of `user.git.name` from `src/user.ts`: read the name cache at
the current working directory; return a truthy hit at once; otherwise, when
a Git executable is discoverable, run `git config --get user.name`, trim
its stdout, cache and return it; otherwise return the initial read. -/
def gitUserName (env : GitEnv) (st : UserState) : CallOut :=
  let name0 := st.nameCache.lookup env.cwd
  if truthy name0 then
    { ret := name0, state := st, gitInvoked := false }
  else if env.whichGit then
    let name := jsTrim env.nameStdout
    { ret := some name
      state := { st with nameCache := setEntry st.nameCache env.cwd name }
      gitInvoked := true }
  else
    { ret := name0, state := st, gitInvoked := false }

/-- Embedding of `user.git.email` from `src/user.ts`: identical to
`gitUserName` but against `emailCache` and `user.email`. -/
def gitUserEmail (env : GitEnv) (st : UserState) : CallOut :=
  let email0 := st.emailCache.lookup env.cwd
  if truthy email0 then
    { ret := email0, state := st, gitInvoked := false }
  else if env.whichGit then
    let email := jsTrim env.emailStdout
    { ret := some email
      state := { st with emailCache := setEntry st.emailCache env.cwd email }
      gitInvoked := true }
  else
    { ret := email0, state := st, gitInvoked := false }

/-- A sequence of calls to `user.git.name`, threading the cache state;
returns the per-call observations (returned value, subprocess run?) and the
final state. -/
def gitNameTrace : List GitEnv → UserState → List (Option String × Bool) × UserState
  | [], st => ([], st)
  | e :: es, st =>
    let o := gitUserName e st
    let rest := gitNameTrace es o.state
    ((o.ret, o.gitInvoked) :: rest.1, rest.2)

/-- A sequence of calls to `user.git.email`, threading the cache state. -/
def gitEmailTrace : List GitEnv → UserState → List (Option String × Bool) × UserState
  | [], st => ([], st)
  | e :: es, st =>
    let o := gitUserEmail e st
    let rest := gitEmailTrace es o.state
    ((o.ret, o.gitInvoked) :: rest.1, rest.2)

/-! ## Orchestration (src/index.ts)

The command action collects prompt answers, assembles the flat template
context `tpl`, builds the fixed action list (with a conditional CLI entry),
rewrites every action path under `<cwd>/<moduleName>` and every template
file under `./templates/`, runs the actions, then initialises a Git
repository inside a `try`/`catch` that logs either success or the caught
error, and finally calls the dependency installer when the `install`
option is enabled. -/

/-- The CLI options record of `src/index.ts` (`NpmOptions`); `none` models
an option the user did not pass (JavaScript `undefined`). -/
structure NpmOptions where
  coveralls : Option Bool := none
  org : Option String := none
  cli : Option Bool := none
  coverage : Option Bool := none
  install : Option Bool := none
deriving DecidableEq

/-- The prompt answers record of `src/index.ts` (`NpmAnswers`), as produced
by `api.prompt`; a question skipped by its `when` guard leaves its answer
`undefined`, modelled as `none`. -/
structure NpmAnswers where
  moduleName : String
  moduleDescription : String
  githubUsername : Option String := none
  website : String
  cli : Option Bool := none
  nyc : Option Bool := none
  coveralls : Option Bool := none
deriving DecidableEq

/-- The `or` helper of `src/index.ts` on boolean-valued fields:
`options[option] === undefined ? answers[prop || option] : options[option]`. -/
def orAns (opt ans : Option Bool) : Option Bool :=
  match opt with
  | none => ans
  | some v => some v

/-- JavaScript truthiness of an optional boolean. -/
def truthyB : Option Bool → Bool
  | some b => b
  | none => false

/-- JavaScript truthiness of an optional string (`options.org`). -/
def truthyS : Option String → Bool
  | some s => !s.isEmpty
  | none => false

/-- Modelled from the spec: the external `underscore.string` dependency's
`camelize` (not part of this repository), which turns the hyphenated
`repoName` into the camel-cased `camelModuleName` of the generation
context (the spec's end-to-end property pins `camelize "my-app" = "myApp"`):
separator characters (`-`, `_`, space) are dropped and the character
following a separator is upper-cased. -/
def camelizeChars : List Char → Bool → List Char
  | [], _ => []
  | c :: cs, up =>
    if c = '-' ∨ c = '_' ∨ c = ' ' then camelizeChars cs true
    else (if up then c.toUpper else c) :: camelizeChars cs false

/-- Modelled from the spec: `_s.camelize`, see `camelizeChars`. -/
def camelize (s : String) : String :=
  String.mk (camelizeChars (jsTrim s).data false)

/-- The generation context `tpl` of `src/index.ts`: the flat key-value
mapping handed to `api.runActions`. `name` and `email` are the results of
`user.git.name()` / `user.git.email()`, which may be `undefined`. -/
structure Tpl where
  moduleName : String
  moduleDescription : String
  camelModuleName : String
  githubUsername : Option String
  repoName : String
  name : Option String
  email : Option String
  website : String
  humanizedWebsite : String
  cli : Option Bool
  nyc : Option Bool
  coveralls : Option Bool
deriving DecidableEq

/-- Assembly of the generation context from `src/index.ts` lines 104-128,
with the external `humanize-url` dependency passed in as a function and the
Git identity results passed in as the values the resolver produced. -/
def mkTpl (options : NpmOptions) (answers : NpmAnswers)
    (gitName gitEmail : Option String) (humanizeUrl : String → String) : Tpl :=
  let cli := orAns options.cli answers.cli
  let coveralls := orAns options.coveralls answers.coveralls
  let nyc := if truthyB coveralls then coveralls
    else orAns options.coverage answers.nyc
  let repo := repoName answers.moduleName
  { moduleName := answers.moduleName
    moduleDescription := answers.moduleDescription
    camelModuleName := camelize repo
    githubUsername :=
      if truthyS options.org then options.org else answers.githubUsername
    repoName := repo
    name := gitName
    email := gitEmail
    website := answers.website
    humanizedWebsite := humanizeUrl answers.website
    cli := cli
    nyc := nyc
    coveralls := coveralls }

/-- The prettier options record `formatOpts` of `src/index.ts`. -/
structure FmtOpts where
  parser : String
  singleQuote : Bool := false
  semi : Bool := true
  trailingComma : String := "none"
deriving DecidableEq

/-- `formatOpts` from `src/index.ts` lines 130-135. -/
def formatOpts : FmtOpts :=
  { parser := "typescript", singleQuote := true, semi := false
    trailingComma := "es5" }

/-- A file action record handed to `api.runActions`. -/
structure FileAct where
  path : String
  templateFile : String
  format : Option FmtOpts := none
deriving DecidableEq

/-- The eleven-element fixed action list literal of `src/index.ts`
lines 137-193. -/
def baseActions : List FileAct :=
  [ { path := ".prettierrc", templateFile := "prettierrc" },
    { path := ".gitignore", templateFile := "gitignore" },
    { path := ".travis.yml", templateFile := "travis.yml" },
    { path := "package.json", templateFile := "_package.json"
      format := some { parser := "json" } },
    { path := "tsconfig.json", templateFile := "_tsconfig.json"
      format := some { parser := "json" } },
    { path := "tslint.json", templateFile := "tslint.json"
      format := some { parser := "json" } },
    { path := ".npmignore", templateFile := "npmignore" },
    { path := "index.ts", templateFile := "index.ts"
      format := some formatOpts },
    { path := "test.ts", templateFile := "test.ts"
      format := some formatOpts },
    { path := "license", templateFile := "license" },
    { path := "readme.md", templateFile := "readme.md" } ]

/-- `path.join` for the relative segments used here. -/
def pathJoin (a b : String) : String := a ++ "/" ++ b

/-- The action list handed to `api.runActions` (`src/index.ts` lines
137-207): the fixed eleven actions, plus the `cli.ts` action when
`tpl.cli` is truthy, each rewritten under `<processCwd>/<moduleName>` and
`./templates/`. -/
def mkActions (tpl : Tpl) (processCwd : String) : List FileAct :=
  let acts := baseActions ++
    (if truthyB tpl.cli then
      [{ path := "cli.ts", templateFile := "cli.ts"
         format := some formatOpts }]
     else [])
  let cwd := pathJoin processCwd tpl.moduleName
  acts.map (fun a =>
    { a with
      path := pathJoin cwd a.path
      templateFile := "./templates/" ++ a.templateFile })

/-- Observable events of the tail of the command action in `src/index.ts`
(after `api.runActions`): the two `api.log` calls and the
`api.npm.install` call. -/
inductive RunEvent
  | logCreated
  | logError
  | installCalled
deriving DecidableEq

/-- The `git init` subprocess (`execa.shell`), which throws on failure. -/
def gitInitStep (fails : Bool) : Except String Unit :=
  if fails then Except.error "git init failed" else Except.ok ()

/-- The tail of the command action (`src/index.ts` lines 210-222): `git
init` inside `try`/`catch` — success logs the created-repo message, a
thrown error is caught and logged — followed by `api.npm.install` when the
install option is enabled. An uncaught error would surface as
`Except.error`; the `catch` converts the failure into a logged event. -/
def runTail (gitInitFails installOpt : Bool) : Except String (List RunEvent) :=
  let logEvt := match gitInitStep gitInitFails with
    | Except.ok _ => RunEvent.logCreated
    | Except.error _ => RunEvent.logError
  Except.ok ([logEvt] ++ if installOpt then [RunEvent.installCalled] else [])

/-! ## Helper lemmas -/

lemma takeWhile_app_all (p : Char → Bool) (l₁ l₂ : List Char)
    (h : ∀ a ∈ l₁, p a = true) :
    (l₁ ++ l₂).takeWhile p = l₁ ++ l₂.takeWhile p := by
  induction l₁ with
  | nil => simp
  | cons a l ih =>
    simp only [List.cons_append, List.takeWhile_cons, h a (by simp)]
    simp only [if_true]
    rw [ih (fun x hx => h x (by simp [hx]))]

lemma dropWhile_app_all (p : Char → Bool) (l₁ l₂ : List Char)
    (h : ∀ a ∈ l₁, p a = true) :
    (l₁ ++ l₂).dropWhile p = l₂.dropWhile p := by
  induction l₁ with
  | nil => simp
  | cons a l ih =>
    simp only [List.cons_append, List.dropWhile_cons, h a (by simp)]
    simp only [if_true]
    exact ih (fun x hx => h x (by simp [hx]))

lemma isScoped_iff (name : String) : isScoped name = true ↔ scopedSpec name := by
  constructor
  · intro h
    unfold isScoped at h
    split at h
    case h_1 rest heq =>
      split at h
      case h_1 pkg hdrop =>
        simp only [Bool.and_eq_true, Bool.not_eq_true'] at h
        obtain ⟨⟨hscope, hpkg⟩, hnoslash⟩ := h
        refine ⟨rest.takeWhile (fun c => c ≠ '/'), pkg, ?_, ?_, ?_, ?_, ?_⟩
        · rw [heq]
          have := List.takeWhile_append_dropWhile (fun c => decide (c ≠ '/')) rest
          rw [hdrop] at this
          exact congrArg (List.cons '@') this.symm
        · simpa [List.isEmpty_iff] using hscope
        · simpa [List.isEmpty_iff] using hpkg
        · intro hmem
          have := List.mem_takeWhile_imp hmem
          simp at this
        · intro hmem
          have : pkg.contains '/' = true := by
            simp [List.contains, List.elem_iff]; exact hmem
          rw [hnoslash] at this; exact absurd this (by simp)
      case h_2 => simp at h
    case h_2 => simp at h
  · rintro ⟨s, n, hdata, hs, hn, hsm, hnm⟩
    have hall : ∀ a ∈ s, (fun c => decide (c ≠ '/')) a = true := by
      intro a ha
      simp only [decide_eq_true_eq]
      intro he; subst he; exact hsm ha
    unfold isScoped
    rw [hdata]
    have hdrop : (s ++ '/' :: n).dropWhile (fun c => decide (c ≠ '/')) = '/' :: n := by
      rw [dropWhile_app_all _ _ _ hall]
      simp [List.dropWhile_cons]
    have htake : (s ++ '/' :: n).takeWhile (fun c => decide (c ≠ '/')) = s := by
      rw [takeWhile_app_all _ _ _ hall]
      simp [List.takeWhile_cons]
    simp only [hdrop, htake]
    simp only [Bool.and_eq_true, Bool.not_eq_true']
    refine ⟨⟨?_, ?_⟩, ?_⟩
    · simpa [List.isEmpty_iff] using hs
    · simpa [List.isEmpty_iff] using hn
    · by_contra hc
      simp only [Bool.not_eq_false] at hc
      rw [List.contains, List.elem_iff] at hc
      exact hnm hc

lemma scopedTail_eq (name : String) (s n : List Char)
    (hdata : name.data = '@' :: (s ++ '/' :: n)) (hsm : '/' ∉ s) :
    (scopedTail name).data = n := by
  have hall : ∀ a ∈ s, (fun c => decide (c ≠ '/')) a = true := by
    intro a ha
    simp only [decide_eq_true_eq]
    intro he; subst he; exact hsm ha
  unfold scopedTail
  rw [hdata]
  simp only [List.drop_succ_cons, List.drop_zero]
  rw [dropWhile_app_all _ _ _ hall]
  simp [List.dropWhile_cons]

lemma char_le_toNat (a b : UInt32) : (a ≤ b) ↔ a.toBitVec.toNat ≤ b.toBitVec.toNat := by
  rw [UInt32.le_def, BitVec.le_def]

lemma isUpper_toNat (c : Char) : c.isUpper = true ↔ (65 ≤ c.toNat ∧ c.toNat ≤ 90) := by
  simp only [Char.isUpper, Bool.and_eq_true, decide_eq_true_eq, ge_iff_le,
    char_le_toNat]
  have h65 : (UInt32.toBitVec 65).toNat = 65 := by decide
  have h90 : (UInt32.toBitVec 90).toNat = 90 := by decide
  have hc : c.val.toBitVec.toNat = c.toNat := rfl
  rw [h65, h90, hc]

lemma ofNat_lower_isUpper (m : Nat) (h1 : 97 ≤ m) (h2 : m ≤ 122) :
    (Char.ofNat m).isUpper = false := by
  have hv : m.isValidChar := Or.inl (by omega)
  simp [Char.ofNat, hv, Char.ofNatAux, Char.isUpper]
  intro h
  rw [UInt32.lt_def, BitVec.lt_def]
  simp [BitVec.toNat_ofNatLt]
  omega

lemma ofNat_lower_ne_space (m : Nat) (h1 : 97 ≤ m) (h2 : m ≤ 122) :
    Char.ofNat m ≠ ' ' := by
  have hv : m.isValidChar := Or.inl (by omega)
  simp [Char.ofNat, hv, Char.ofNatAux]
  intro h
  have := congrArg (fun c => c.val.toBitVec.toNat) h
  simp [BitVec.toNat_ofNatLt] at this
  omega

lemma slugChar_good (c : Char) : (slugChar c).isUpper = false ∧ slugChar c ≠ ' ' := by
  by_cases halnum : c.isAlphanum
  · have hne : c ≠ ' ' := by
      intro he; rw [he] at halnum; exact absurd halnum (by decide)
    unfold slugChar
    rw [if_pos halnum]
    unfold Char.toLower
    by_cases hr : c.toNat ≥ 65 ∧ c.toNat ≤ 90
    · rw [if_pos hr]
      exact ⟨ofNat_lower_isUpper _ (by omega) (by omega),
        ofNat_lower_ne_space _ (by omega) (by omega)⟩
    · rw [if_neg hr]
      refine ⟨?_, hne⟩
      by_contra hu
      simp only [Bool.not_eq_false] at hu
      exact hr ((isUpper_toNat c).mp hu)
  · unfold slugChar
    rw [if_neg halnum]
    exact ⟨by decide, by decide⟩

lemma mem_collapseDashes (c : Char) :
    ∀ (l : List Char) (b : Bool), c ∈ collapseDashes l b → c ∈ l := by
  intro l
  induction l with
  | nil => intro b h; simp [collapseDashes] at h
  | cons a as ih =>
    intro b h
    unfold collapseDashes at h
    split at h
    next ha =>
      split at h
      · exact List.mem_cons_of_mem a (ih true h)
      · rcases List.mem_cons.mp h with h1 | h2
        · subst ha; subst h1; exact List.mem_cons_self _ _
        · exact List.mem_cons_of_mem a (ih true h2)
    next ha =>
      rcases List.mem_cons.mp h with h1 | h2
      · subst h1; exact List.mem_cons_self _ _
      · exact List.mem_cons_of_mem a (ih false h2)

lemma mem_usSlugify (c : Char) (s : String) (h : c ∈ (usSlugify s).data) :
    ∃ a, c = slugChar a := by
  unfold usSlugify at h
  have h1 : c ∈ ((collapseDashes (s.data.map slugChar) false).dropWhile
      (fun x => x = '-')).reverse.dropWhile (fun x => x = '-') := by
    simpa [List.mem_reverse] using h
  have h2 := (List.dropWhile_sublist _).subset h1
  rw [List.mem_reverse] at h2
  have h3 := (List.dropWhile_sublist _).subset h2
  have h4 := mem_collapseDashes c _ false h3
  rw [List.mem_map] at h4
  obtain ⟨a, _, hEq⟩ := h4
  exact ⟨a, hEq.symm⟩

/-! ## Claim theorems: Name Normalizer -/

/-- C5: for every string `name`, `isScoped name` is true exactly when
`name` has the form `@scope/name` with both segments non-empty and free of
slashes; in particular `isScoped "@a/b"` is true while `"plain-name"`,
`"@a/b/c"` and `"@/b"` are not scoped. -/
theorem isScoped_two_segment_pattern :
    (∀ name, isScoped name = true ↔ scopedSpec name) ∧
    isScoped "@a/b" = true ∧ isScoped "plain-name" = false ∧
    isScoped "@a/b/c" = false ∧ isScoped "@/b" = false :=
  ⟨isScoped_iff, by decide, by decide, by decide, by decide⟩

/-- C6: `repoName` returns the segment after the `@scope/` prefix on
scoped names and the input unchanged otherwise; in particular
`repoName "@scope/thing" = "thing"` and `repoName "thing" = "thing"`. -/
theorem repoName_second_segment :
    (∀ name, isScoped name = false → repoName name = name) ∧
    (∀ (name : String) (s n : List Char),
      name.data = '@' :: (s ++ '/' :: n) → s ≠ [] → n ≠ [] →
      '/' ∉ s → '/' ∉ n → (repoName name).data = n) ∧
    repoName "@scope/thing" = "thing" ∧ repoName "thing" = "thing" := by
  refine ⟨?_, ?_, by decide, by decide⟩
  · intro name h
    simp [repoName, h]
  · intro name s n hdata hs hn hsm hnm
    have hsc : isScoped name = true :=
      (isScoped_iff name).mpr ⟨s, n, hdata, hs, hn, hsm, hnm⟩
    simp [repoName, hsc, scopedTail_eq name s n hdata hsm]

/-- C6 witness: the general theorem evaluated on the spec's examples. -/
theorem repoName_second_segment_witness :
    (repoName "@scope/thing").data = "thing".data ∧
    isScoped "thing" = false ∧ repoName "thing" = "thing" :=
  ⟨repoName_second_segment.2.1 "@scope/thing" "scope".data "thing".data
      (by decide) (by decide) (by decide) (by decide) (by decide),
   by decide,
   repoName_second_segment.1 "thing" (by decide)⟩

/-- C7: `slugify` is the identity on scoped names and the (spec-modelled)
`underscore.string` slug on everything else; slug output never contains an
uppercase letter or a space. -/
theorem slugify_identity_on_scoped :
    (∀ name, isScoped name = true → slugify name = name) ∧
    (∀ name, isScoped name = false → slugify name = usSlugify name) ∧
    slugify "@scope/Thing_Name" = "@scope/Thing_Name" ∧
    slugify "My Cool Module" = "my-cool-module" ∧
    (∀ (s : String), ∀ c ∈ (usSlugify s).data, c.isUpper = false ∧ c ≠ ' ') := by
  refine ⟨?_, ?_, by decide, by decide, ?_⟩
  · intro name h
    simp [slugify, h]
  · intro name h
    simp [slugify, h]
  · intro s c hc
    obtain ⟨a, rfl⟩ := mem_usSlugify c s hc
    exact slugChar_good a

/-- C7 witness: the theorem evaluated on the spec's examples. -/
theorem slugify_identity_on_scoped_witness :
    slugify "@a/b" = "@a/b" ∧
    slugify "My Cool Module" = usSlugify "My Cool Module" :=
  ⟨slugify_identity_on_scoped.1 "@a/b" (by decide),
   slugify_identity_on_scoped.2.1 "My Cool Module" (by decide)⟩

end MerryNpm
namespace MerryNpm

lemma lookup_setEntry_self (m : List (String × String)) (k v : String) :
    (setEntry m k v).lookup k = some v := by
  simp [setEntry, List.lookup]

lemma lookup_setEntry_other (m : List (String × String)) (k v k' : String)
    (h : k' ≠ k) : (setEntry m k v).lookup k' = m.lookup k' := by
  have hb : (k' == k) = false := by simp [h]
  simp [setEntry, List.lookup, hb]

lemma gitUserName_cached (env : GitEnv) (st : UserState)
    (h : truthy (st.nameCache.lookup env.cwd) = true) :
    gitUserName env st =
      { ret := st.nameCache.lookup env.cwd, state := st, gitInvoked := false } := by
  unfold gitUserName
  rw [if_pos h]

lemma gitUserName_fetch (env : GitEnv) (st : UserState)
    (h : truthy (st.nameCache.lookup env.cwd) = false) (hw : env.whichGit = true) :
    gitUserName env st =
      { ret := some (jsTrim env.nameStdout)
        state := { st with
          nameCache := setEntry st.nameCache env.cwd (jsTrim env.nameStdout) }
        gitInvoked := true } := by
  unfold gitUserName
  rw [if_neg (by simp [h]), if_pos hw]

lemma gitUserName_nogit (env : GitEnv) (st : UserState)
    (h : truthy (st.nameCache.lookup env.cwd) = false) (hw : env.whichGit = false) :
    gitUserName env st =
      { ret := st.nameCache.lookup env.cwd, state := st, gitInvoked := false } := by
  unfold gitUserName
  rw [if_neg (by simp [h]), if_neg (by simp [hw])]

lemma gitUserEmail_cached (env : GitEnv) (st : UserState)
    (h : truthy (st.emailCache.lookup env.cwd) = true) :
    gitUserEmail env st =
      { ret := st.emailCache.lookup env.cwd, state := st, gitInvoked := false } := by
  unfold gitUserEmail
  rw [if_pos h]

lemma gitUserEmail_fetch (env : GitEnv) (st : UserState)
    (h : truthy (st.emailCache.lookup env.cwd) = false) (hw : env.whichGit = true) :
    gitUserEmail env st =
      { ret := some (jsTrim env.emailStdout)
        state := { st with
          emailCache := setEntry st.emailCache env.cwd (jsTrim env.emailStdout) }
        gitInvoked := true } := by
  unfold gitUserEmail
  rw [if_neg (by simp [h]), if_pos hw]

lemma gitUserEmail_nogit (env : GitEnv) (st : UserState)
    (h : truthy (st.emailCache.lookup env.cwd) = false) (hw : env.whichGit = false) :
    gitUserEmail env st =
      { ret := st.emailCache.lookup env.cwd, state := st, gitInvoked := false } := by
  unfold gitUserEmail
  rw [if_neg (by simp [h]), if_neg (by simp [hw])]

lemma gitUserName_cache_eq_ret (env : GitEnv) (st : UserState) :
    (gitUserName env st).state.nameCache.lookup env.cwd = (gitUserName env st).ret := by
  by_cases h : truthy (st.nameCache.lookup env.cwd)
  · rw [gitUserName_cached env st h]
  · by_cases hw : env.whichGit
    · rw [gitUserName_fetch env st (by simpa using h) hw]
      exact lookup_setEntry_self _ _ _
    · rw [gitUserName_nogit env st (by simpa using h) (by simpa using hw)]

lemma gitUserEmail_cache_eq_ret (env : GitEnv) (st : UserState) :
    (gitUserEmail env st).state.emailCache.lookup env.cwd = (gitUserEmail env st).ret := by
  by_cases h : truthy (st.emailCache.lookup env.cwd)
  · rw [gitUserEmail_cached env st h]
  · by_cases hw : env.whichGit
    · rw [gitUserEmail_fetch env st (by simpa using h) hw]
      exact lookup_setEntry_self _ _ _
    · rw [gitUserEmail_nogit env st (by simpa using h) (by simpa using hw)]

lemma gitUserName_stable (env1 env2 : GitEnv) (st : UserState)
    (hcwd : env2.cwd = env1.cwd) (h : truthy (gitUserName env1 st).ret = true) :
    gitUserName env2 (gitUserName env1 st).state =
      { ret := (gitUserName env1 st).ret
        state := (gitUserName env1 st).state
        gitInvoked := false } := by
  have hc : (gitUserName env1 st).state.nameCache.lookup env2.cwd =
      (gitUserName env1 st).ret := by
    rw [hcwd]
    exact gitUserName_cache_eq_ret env1 st
  have ht : truthy ((gitUserName env1 st).state.nameCache.lookup env2.cwd) = true := by
    rw [hc]
    exact h
  rw [gitUserName_cached env2 _ ht, hc]

lemma gitUserEmail_stable (env1 env2 : GitEnv) (st : UserState)
    (hcwd : env2.cwd = env1.cwd) (h : truthy (gitUserEmail env1 st).ret = true) :
    gitUserEmail env2 (gitUserEmail env1 st).state =
      { ret := (gitUserEmail env1 st).ret
        state := (gitUserEmail env1 st).state
        gitInvoked := false } := by
  have hc : (gitUserEmail env1 st).state.emailCache.lookup env2.cwd =
      (gitUserEmail env1 st).ret := by
    rw [hcwd]
    exact gitUserEmail_cache_eq_ret env1 st
  have ht : truthy ((gitUserEmail env1 st).state.emailCache.lookup env2.cwd) = true := by
    rw [hc]
    exact h
  rw [gitUserEmail_cached env2 _ ht, hc]

end MerryNpm
namespace MerryNpm

lemma gitUserName_ret_spec (env : GitEnv) (st : UserState) :
    (env.whichGit = true → ∃ s, (gitUserName env st).ret = some s) ∧
    ((gitUserName env st).ret = none →
      env.whichGit = false ∧ st.nameCache.lookup env.cwd = none) ∧
    (env.whichGit = true → truthy (st.nameCache.lookup env.cwd) = false →
      (gitUserName env st).ret = some (jsTrim env.nameStdout)) := by
  by_cases h : truthy (st.nameCache.lookup env.cwd)
  · rw [gitUserName_cached env st h]
    cases hl : st.nameCache.lookup env.cwd with
    | none => rw [hl] at h; simp [truthy] at h
    | some s =>
      refine ⟨fun _ => ⟨s, rfl⟩, fun hn => ?_, fun _ hc => ?_⟩
      · exact absurd hn (by simp)
      · rw [hl] at h
        rw [h] at hc
        exact absurd hc (by simp)
  · by_cases hw : env.whichGit
    · rw [gitUserName_fetch env st (by simpa using h) hw]
      exact ⟨fun _ => ⟨jsTrim env.nameStdout, rfl⟩, fun hn => absurd hn (by simp),
        fun _ _ => rfl⟩
    · rw [gitUserName_nogit env st (by simpa using h) (by simpa using hw)]
      refine ⟨fun hg => absurd hg (by simpa using hw), fun hn => ?_,
        fun hg _ => absurd hg (by simpa using hw)⟩
      exact ⟨by simpa using hw, hn⟩

lemma gitUserEmail_ret_spec (env : GitEnv) (st : UserState) :
    (env.whichGit = true → ∃ s, (gitUserEmail env st).ret = some s) ∧
    ((gitUserEmail env st).ret = none →
      env.whichGit = false ∧ st.emailCache.lookup env.cwd = none) ∧
    (env.whichGit = true → truthy (st.emailCache.lookup env.cwd) = false →
      (gitUserEmail env st).ret = some (jsTrim env.emailStdout)) := by
  by_cases h : truthy (st.emailCache.lookup env.cwd)
  · rw [gitUserEmail_cached env st h]
    cases hl : st.emailCache.lookup env.cwd with
    | none => rw [hl] at h; simp [truthy] at h
    | some s =>
      refine ⟨fun _ => ⟨s, rfl⟩, fun hn => ?_, fun _ hc => ?_⟩
      · exact absurd hn (by simp)
      · rw [hl] at h
        rw [h] at hc
        exact absurd hc (by simp)
  · by_cases hw : env.whichGit
    · rw [gitUserEmail_fetch env st (by simpa using h) hw]
      exact ⟨fun _ => ⟨jsTrim env.emailStdout, rfl⟩, fun hn => absurd hn (by simp),
        fun _ _ => rfl⟩
    · rw [gitUserEmail_nogit env st (by simpa using h) (by simpa using hw)]
      refine ⟨fun hg => absurd hg (by simpa using hw), fun hn => ?_,
        fun hg _ => absurd hg (by simpa using hw)⟩
      exact ⟨by simpa using hw, hn⟩

/-! ## Claim theorems: Identity Resolver -/

/-- C3: no negative caching — when a call for a directory produced an
empty or undefined result, a later call for the same directory with Git
discoverable runs the `git config` subprocess again instead of
short-circuiting on the cache. -/
theorem resolver_no_negative_caching :
    (∀ (env1 env2 : GitEnv) (st : UserState), env2.cwd = env1.cwd →
      env2.whichGit = true → truthy (gitUserName env1 st).ret = false →
      (gitUserName env2 (gitUserName env1 st).state).gitInvoked = true) ∧
    (∀ (env1 env2 : GitEnv) (st : UserState), env2.cwd = env1.cwd →
      env2.whichGit = true → truthy (gitUserEmail env1 st).ret = false →
      (gitUserEmail env2 (gitUserEmail env1 st).state).gitInvoked = true) := by
  constructor
  · intro env1 env2 st hcwd hw h
    have hc : truthy ((gitUserName env1 st).state.nameCache.lookup env2.cwd) = false := by
      rw [hcwd, gitUserName_cache_eq_ret env1 st]
      exact h
    rw [gitUserName_fetch env2 _ hc hw]
  · intro env1 env2 st hcwd hw h
    have hc : truthy ((gitUserEmail env1 st).state.emailCache.lookup env2.cwd) = false := by
      rw [hcwd, gitUserEmail_cache_eq_ret env1 st]
      exact h
    rw [gitUserEmail_fetch env2 _ hc hw]

/-- C3 witness: first call with no Git executable yields `undefined`; the
second call for the same directory, Git now discoverable, shells out. -/
theorem resolver_no_negative_caching_witness :
    (gitUserName ⟨"/a", true, "Jane Doe", "e"⟩
      (gitUserName ⟨"/a", false, "x", "y"⟩ ⟨[], []⟩).state).gitInvoked = true ∧
    (gitUserEmail ⟨"/a", true, "n", "jane@example.com"⟩
      (gitUserEmail ⟨"/a", false, "x", "y"⟩ ⟨[], []⟩).state).gitInvoked = true :=
  ⟨resolver_no_negative_caching.1 ⟨"/a", false, "x", "y"⟩
      ⟨"/a", true, "Jane Doe", "e"⟩ ⟨[], []⟩ rfl rfl (by decide),
   resolver_no_negative_caching.2 ⟨"/a", false, "x", "y"⟩
      ⟨"/a", true, "n", "jane@example.com"⟩ ⟨[], []⟩ rfl rfl (by decide)⟩

/-- C4: once a call returned a non-empty value for a directory, every
later call in the same process for that directory — whatever the Git
configuration or executable availability then looks like — runs no
subprocess, returns the identical value, and leaves the caches unchanged. -/
theorem resolver_nonempty_is_permanent :
    (∀ (env1 : GitEnv) (envs : List GitEnv) (st : UserState),
      (∀ e ∈ envs, e.cwd = env1.cwd) → truthy (gitUserName env1 st).ret = true →
      gitNameTrace envs (gitUserName env1 st).state =
        (envs.map (fun _ => ((gitUserName env1 st).ret, false)),
          (gitUserName env1 st).state)) ∧
    (∀ (env1 : GitEnv) (envs : List GitEnv) (st : UserState),
      (∀ e ∈ envs, e.cwd = env1.cwd) → truthy (gitUserEmail env1 st).ret = true →
      gitEmailTrace envs (gitUserEmail env1 st).state =
        (envs.map (fun _ => ((gitUserEmail env1 st).ret, false)),
          (gitUserEmail env1 st).state)) := by
  constructor
  · intro env1 envs st hall h
    induction envs with
    | nil => simp [gitNameTrace]
    | cons e es ih =>
      have he : e.cwd = env1.cwd := hall e (by simp)
      have hstep := gitUserName_stable env1 e st he h
      simp only [gitNameTrace, hstep]
      rw [ih (fun x hx => hall x (by simp [hx]))]
      simp
  · intro env1 envs st hall h
    induction envs with
    | nil => simp [gitEmailTrace]
    | cons e es ih =>
      have he : e.cwd = env1.cwd := hall e (by simp)
      have hstep := gitUserEmail_stable env1 e st he h
      simp only [gitEmailTrace, hstep]
      rw [ih (fun x hx => hall x (by simp [hx]))]
      simp

/-- C4 witness: after a successful fetch of `"Jane Doe"` in `/a`, a later
call in `/a` with Git unavailable and a changed config still returns
`"Jane Doe"` without shelling out. -/
theorem resolver_nonempty_is_permanent_witness :
    gitNameTrace [⟨"/a", false, "Other Name", ""⟩]
        (gitUserName ⟨"/a", true, " Jane Doe ", "e"⟩ ⟨[], []⟩).state =
      ([((gitUserName ⟨"/a", true, " Jane Doe ", "e"⟩ ⟨[], []⟩).ret, false)],
        (gitUserName ⟨"/a", true, " Jane Doe ", "e"⟩ ⟨[], []⟩).state) :=
  resolver_nonempty_is_permanent.1 ⟨"/a", true, " Jane Doe ", "e"⟩
    [⟨"/a", false, "Other Name", ""⟩] ⟨[], []⟩ (by simp) (by decide)

/-- C2 counterexample: with Git discoverable and `git config` producing
empty output, the call returns the empty string — an empty result — and
nevertheless a cache entry holding `""` is stored for the directory, for
the name cache and the email cache alike. -/
theorem resolver_stores_empty_counterexample :
    truthy (gitUserName ⟨"/a", true, "", ""⟩ ⟨[], []⟩).ret = false ∧
    (gitUserName ⟨"/a", true, "", ""⟩ ⟨[], []⟩).state.nameCache.lookup "/a" =
      some "" ∧
    truthy (gitUserEmail ⟨"/a", true, "", ""⟩ ⟨[], []⟩).ret = false ∧
    (gitUserEmail ⟨"/a", true, "", ""⟩ ⟨[], []⟩).state.emailCache.lookup "/a" =
      some "" := by
  decide

/-- C2 amended: a cache entry is stored exactly when a Git executable is
discoverable and the cache held no truthy value; the stored value is the
trimmed subprocess output even when that is empty. When no Git executable
is discoverable (or the cache already held a truthy value) the state is
unchanged. -/
theorem resolver_cache_store_policy :
    ∀ (env : GitEnv) (st : UserState),
      (env.whichGit = false →
        (gitUserName env st).state = st ∧ (gitUserEmail env st).state = st) ∧
      (env.whichGit = true → truthy (st.nameCache.lookup env.cwd) = false →
        (gitUserName env st).state.nameCache.lookup env.cwd =
          some (jsTrim env.nameStdout)) ∧
      (env.whichGit = true → truthy (st.emailCache.lookup env.cwd) = false →
        (gitUserEmail env st).state.emailCache.lookup env.cwd =
          some (jsTrim env.emailStdout)) ∧
      (truthy (st.nameCache.lookup env.cwd) = true →
        (gitUserName env st).state = st) ∧
      (truthy (st.emailCache.lookup env.cwd) = true →
        (gitUserEmail env st).state = st) := by
  intro env st
  refine ⟨fun hw => ⟨?_, ?_⟩, fun hw hc => ?_, fun hw hc => ?_, fun hc => ?_,
    fun hc => ?_⟩
  · by_cases h : truthy (st.nameCache.lookup env.cwd)
    · rw [gitUserName_cached env st h]
    · rw [gitUserName_nogit env st (by simpa using h) hw]
  · by_cases h : truthy (st.emailCache.lookup env.cwd)
    · rw [gitUserEmail_cached env st h]
    · rw [gitUserEmail_nogit env st (by simpa using h) hw]
  · rw [gitUserName_fetch env st hc hw]
    exact lookup_setEntry_self _ _ _
  · rw [gitUserEmail_fetch env st hc hw]
    exact lookup_setEntry_self _ _ _
  · rw [gitUserName_cached env st hc]
  · rw [gitUserEmail_cached env st hc]

/-- C2 witness: storing the trimmed value on a fetch, and leaving the
state untouched when Git is unavailable. -/
theorem resolver_cache_store_policy_witness :
    (gitUserName ⟨"/a", true, " Jane ", "j"⟩ ⟨[], []⟩).state.nameCache.lookup "/a" =
      some (jsTrim " Jane ") ∧
    (gitUserName ⟨"/a", false, "Jane", "j"⟩ ⟨[], []⟩).state = ⟨[], []⟩ :=
  ⟨((resolver_cache_store_policy ⟨"/a", true, " Jane ", "j"⟩ ⟨[], []⟩).2.1 rfl
      (by decide)),
   ((resolver_cache_store_policy ⟨"/a", false, "Jane", "j"⟩ ⟨[], []⟩).1 rfl).1⟩

/-- C8: a name (resp. email) resolution in one directory changes at most
the name (resp. email) cache entry of that directory: the other cache is
untouched and every other directory's entry reads back unchanged. -/
theorem resolver_frame_effect :
    ∀ (env : GitEnv) (st : UserState),
      ((gitUserName env st).state.emailCache = st.emailCache ∧
        ∀ k, k ≠ env.cwd →
          (gitUserName env st).state.nameCache.lookup k =
            st.nameCache.lookup k) ∧
      ((gitUserEmail env st).state.nameCache = st.nameCache ∧
        ∀ k, k ≠ env.cwd →
          (gitUserEmail env st).state.emailCache.lookup k =
            st.emailCache.lookup k) := by
  intro env st
  constructor
  · by_cases h : truthy (st.nameCache.lookup env.cwd)
    · rw [gitUserName_cached env st h]
      exact ⟨rfl, fun k _ => rfl⟩
    · by_cases hw : env.whichGit
      · rw [gitUserName_fetch env st (by simpa using h) hw]
        exact ⟨rfl, fun k hk => lookup_setEntry_other _ _ _ _ hk⟩
      · rw [gitUserName_nogit env st (by simpa using h) (by simpa using hw)]
        exact ⟨rfl, fun k _ => rfl⟩
  · by_cases h : truthy (st.emailCache.lookup env.cwd)
    · rw [gitUserEmail_cached env st h]
      exact ⟨rfl, fun k _ => rfl⟩
    · by_cases hw : env.whichGit
      · rw [gitUserEmail_fetch env st (by simpa using h) hw]
        exact ⟨rfl, fun k hk => lookup_setEntry_other _ _ _ _ hk⟩
      · rw [gitUserEmail_nogit env st (by simpa using h) (by simpa using hw)]
        exact ⟨rfl, fun k _ => rfl⟩

/-- C8 witness: resolving in `/a` leaves directory `/b`'s cached name and
the whole email cache unchanged. -/
theorem resolver_frame_effect_witness :
    (gitUserName ⟨"/a", true, "n", "e"⟩
        ⟨[("/b", "Bob")], [("/b", "bob@b")]⟩).state.nameCache.lookup "/b" =
      ([("/b", "Bob")] : List (String × String)).lookup "/b" ∧
    (gitUserName ⟨"/a", true, "n", "e"⟩
        ⟨[("/b", "Bob")], [("/b", "bob@b")]⟩).state.emailCache = [("/b", "bob@b")] :=
  ⟨(resolver_frame_effect ⟨"/a", true, "n", "e"⟩
      ⟨[("/b", "Bob")], [("/b", "bob@b")]⟩).1.2 "/b" (by decide),
   (resolver_frame_effect ⟨"/a", true, "n", "e"⟩
      ⟨[("/b", "Bob")], [("/b", "bob@b")]⟩).1.1⟩

/-- C10: with Git discoverable the resolver always returns a string — on a
cache miss, exactly the trimmed subprocess output, possibly empty — and it
returns `undefined` only when Git is not discoverable and nothing was ever
cached for the current working directory. -/
theorem resolver_undefined_only_without_git :
    ∀ (env : GitEnv) (st : UserState),
      (env.whichGit = true → (∃ s, (gitUserName env st).ret = some s) ∧
        ∃ s, (gitUserEmail env st).ret = some s) ∧
      ((gitUserName env st).ret = none →
        env.whichGit = false ∧ st.nameCache.lookup env.cwd = none) ∧
      ((gitUserEmail env st).ret = none →
        env.whichGit = false ∧ st.emailCache.lookup env.cwd = none) ∧
      (env.whichGit = true → truthy (st.nameCache.lookup env.cwd) = false →
        (gitUserName env st).ret = some (jsTrim env.nameStdout)) ∧
      (env.whichGit = true → truthy (st.emailCache.lookup env.cwd) = false →
        (gitUserEmail env st).ret = some (jsTrim env.emailStdout)) := by
  intro env st
  exact ⟨fun hw => ⟨(gitUserName_ret_spec env st).1 hw,
      (gitUserEmail_ret_spec env st).1 hw⟩,
    (gitUserName_ret_spec env st).2.1,
    (gitUserEmail_ret_spec env st).2.1,
    (gitUserName_ret_spec env st).2.2,
    (gitUserEmail_ret_spec env st).2.2⟩

/-- C10 witness: with Git discoverable the returned value is the trimmed
stdout, a string. -/
theorem resolver_undefined_only_without_git_witness :
    (∃ s, (gitUserName ⟨"/a", true, " Jane ", "j"⟩ ⟨[], []⟩).ret = some s) ∧
    (gitUserName ⟨"/a", true, " Jane ", "j"⟩ ⟨[], []⟩).ret = some (jsTrim " Jane ") :=
  ⟨((resolver_undefined_only_without_git ⟨"/a", true, " Jane ", "j"⟩ ⟨[], []⟩).1
      rfl).1,
   (resolver_undefined_only_without_git ⟨"/a", true, " Jane ", "j"⟩
      ⟨[], []⟩).2.2.2.1 rfl (by decide)⟩

end MerryNpm
namespace MerryNpm

/-! ## Claim theorems: Orchestration -/

/-- C1 counterexample: in the claim's scenario (module name `my-app`, Git
identity Jane Doe / jane@example.com, options left to their defaults) the
action list handed to the runner has eleven entries when the cli answer is
false — not ten — and twelve when it is true — not eleven. -/
theorem generation_action_count_counterexample :
    (mkActions
        (mkTpl {}
          { moduleName := "my-app", moduleDescription := "d"
            githubUsername := some "jane", website := "https://example.com"
            cli := some false, nyc := some false, coveralls := some false }
          (some "Jane Doe") (some "jane@example.com") (fun s => s))
        "/work").length ≠ 10 ∧
    (mkActions
        (mkTpl {}
          { moduleName := "my-app", moduleDescription := "d"
            githubUsername := some "jane", website := "https://example.com"
            cli := some true, nyc := some false, coveralls := some false }
          (some "Jane Doe") (some "jane@example.com") (fun s => s))
        "/work").length ≠ 11 := by
  decide

/-- C1 amended: in a generation run with module name `my-app`, Git identity
resolving to Jane Doe / jane@example.com and the cli question answered,
the context passed to the action runner carries `repoName = "my-app"`,
`camelModuleName = "myApp"`, `name = "Jane Doe"`, `email =
"jane@example.com"`, and the action list has exactly eleven fixed file
actions when the cli answer is false and twelve (the fixed eleven plus the
CLI entry file) when it is true. -/
theorem generation_context_and_action_count :
    ∀ (options : NpmOptions) (answers : NpmAnswers) (root : String) (b : Bool)
      (humanizeUrl : String → String),
      answers.moduleName = "my-app" → options.cli = none → answers.cli = some b →
      (mkTpl options answers (some "Jane Doe") (some "jane@example.com")
          humanizeUrl).repoName = "my-app" ∧
      (mkTpl options answers (some "Jane Doe") (some "jane@example.com")
          humanizeUrl).camelModuleName = "myApp" ∧
      (mkTpl options answers (some "Jane Doe") (some "jane@example.com")
          humanizeUrl).name = some "Jane Doe" ∧
      (mkTpl options answers (some "Jane Doe") (some "jane@example.com")
          humanizeUrl).email = some "jane@example.com" ∧
      (mkActions
          (mkTpl options answers (some "Jane Doe") (some "jane@example.com")
            humanizeUrl) root).length = if b then 12 else 11 := by
  intro options answers root b hu hmod hocli hacli
  have hrepo : repoName "my-app" = "my-app" := by decide
  have hcam : camelize "my-app" = "myApp" := by decide
  refine ⟨?_, ?_, rfl, rfl, ?_⟩
  · simp [mkTpl, hmod, hrepo]
  · simp [mkTpl, hmod, hrepo, hcam]
  · simp only [mkActions, mkTpl, hocli, hacli, orAns]
    cases b
    · simp [truthyB, baseActions]
    · simp [truthyB, baseActions]

/-- C1 witness: the amended theorem evaluated at a concrete run with the
cli answer true. -/
theorem generation_context_and_action_count_witness :
    (mkTpl {}
        { moduleName := "my-app", moduleDescription := "d"
          githubUsername := some "jane", website := "https://example.com"
          cli := some true, nyc := some false, coveralls := some false }
        (some "Jane Doe") (some "jane@example.com") (fun s => s)).repoName =
      "my-app" ∧
    (mkTpl {}
        { moduleName := "my-app", moduleDescription := "d"
          githubUsername := some "jane", website := "https://example.com"
          cli := some true, nyc := some false, coveralls := some false }
        (some "Jane Doe") (some "jane@example.com") (fun s => s)).camelModuleName =
      "myApp" ∧
    (mkTpl {}
        { moduleName := "my-app", moduleDescription := "d"
          githubUsername := some "jane", website := "https://example.com"
          cli := some true, nyc := some false, coveralls := some false }
        (some "Jane Doe") (some "jane@example.com") (fun s => s)).name =
      some "Jane Doe" ∧
    (mkTpl {}
        { moduleName := "my-app", moduleDescription := "d"
          githubUsername := some "jane", website := "https://example.com"
          cli := some true, nyc := some false, coveralls := some false }
        (some "Jane Doe") (some "jane@example.com") (fun s => s)).email =
      some "jane@example.com" ∧
    (mkActions
        (mkTpl {}
          { moduleName := "my-app", moduleDescription := "d"
            githubUsername := some "jane", website := "https://example.com"
            cli := some true, nyc := some false, coveralls := some false }
          (some "Jane Doe") (some "jane@example.com") (fun s => s))
        "/work").length = if true then 12 else 11 :=
  generation_context_and_action_count {}
    { moduleName := "my-app", moduleDescription := "d"
      githubUsername := some "jane", website := "https://example.com"
      cli := some true, nyc := some false, coveralls := some false }
    "/work" true (fun s => s) rfl rfl rfl

/-- C9: a `git init` failure is caught and logged and not propagated: the
run still finishes normally (`Except.ok`), including the dependency
install step when the install option is enabled. -/
theorem gitInit_failure_nonfatal :
    ∀ installOpt : Bool, ∃ evts,
      runTail true installOpt = Except.ok evts ∧
      RunEvent.logError ∈ evts ∧
      (installOpt = true → RunEvent.installCalled ∈ evts) := by
  intro installOpt
  cases installOpt
  · exact ⟨_, rfl, by decide, by decide⟩
  · exact ⟨_, rfl, by decide, by decide⟩

/-- C9 witness: the theorem at install enabled. -/
theorem gitInit_failure_nonfatal_witness :
    ∃ evts, runTail true true = Except.ok evts ∧
      RunEvent.logError ∈ evts ∧
      (true = true → RunEvent.installCalled ∈ evts) :=
  gitInit_failure_nonfatal true

end MerryNpm
